import Mathlib

/-!
Shallow embedding of the rag-document-qa backend
(src/backend/document_manager.py, src/backend/rag_engine.py,
src/backend/main.py) and proofs about it.

Conventions of the embedding:
* Python strings are Lean `String` (a list of characters); only ASCII
  behaviour is relevant to the claims.
* Python dict metadata on a chunk is an association list
  `List (String × MetaVal)`; `dict.get(key)` is `Document.metaGet`.
* The FAISS docstore dict is modelled by the insertion-ordered list of its
  values (`VectorStore.docstore`); document ids play no role in the code
  under study.
* External library calls (the text splitter, the FAISS index rebuild and
  save, the embedding-similarity ranking, the LLM and the retrieval chain)
  are parameters of the embedded functions; fallible ones return `Except`,
  mirroring Python exceptions.
-/

namespace RagQA

deriving instance DecidableEq for Except

/-- A value stored in the metadata dict of a chunk (only strings and
natural numbers occur in this code base). -/
inductive MetaVal where
  | str (s : String)
  | nat (n : Nat)
deriving DecidableEq, Repr

/-- Embedding of a langchain `Document`: the chunk text (`page_content`)
plus its metadata dict. -/
structure Document where
  page_content : String
  metadata : List (String × MetaVal)
deriving DecidableEq, Repr

/-- Python `doc.metadata.get(key)` (returns `none` when the key is absent). -/
def Document.metaGet (d : Document) (key : String) : Option MetaVal :=
  (d.metadata.find? (fun p => p.1 == key)).map (fun p => p.2)

/-- Python `doc.metadata.get(key, default)`. -/
def Document.metaGetD (d : Document) (key : String) (dflt : MetaVal) : MetaVal :=
  match d.metaGet key with
  | some v => v
  | none => dflt

/-- `pat` is a prefix of `l` (Python `str.startswith`, on char lists). -/
def leadsWith : List Char → List Char → Bool
  | [], _ => true
  | _ :: _, [] => false
  | a :: as, b :: bs => a == b && leadsWith as bs

/-- `pat` occurs as a contiguous substring of `l` (Python `pat in s`). -/
def hasSub (pat : List Char) : List Char → Bool
  | [] => pat.isEmpty
  | c :: rest => leadsWith pat (c :: rest) || hasSub pat rest

/-- Python `pat in s` on strings. -/
def pyIn (pat s : String) : Bool := hasSub pat.data s.data

/-- Python `s.lower()` (ASCII). -/
def lowerStr (s : String) : String := ⟨s.data.map Char.toLower⟩

/-- Python `s.endswith(suffixStr)`. -/
def ends_with (s suffixStr : String) : Bool :=
  leadsWith suffixStr.data.reverse s.data.reverse

/-- Python `s.strip()`. -/
def strip (s : String) : String :=
  ⟨((s.data.dropWhile Char.isWhitespace).reverse.dropWhile Char.isWhitespace).reverse⟩

/-- `pathlib.Path(filepath).name`: the final path component. -/
def pathName (filepath : String) : String :=
  ⟨(filepath.data.reverse.takeWhile (fun c => c ≠ '/')).reverse⟩

/-- `pathlib.Path(name).suffix` of a final path component: the extension
from the last dot, empty when the dot is leading, trailing or absent
(mirrors CPython: `i = name.rfind("."); name[i:] if 0 < i < len(name)-1`). -/
def pathSuffix (name : String) : String :=
  let cs := name.data
  let tailLen := (cs.reverse.takeWhile (fun c => c ≠ '.')).length
  if tailLen = cs.length then ""
  else
    let i := cs.length - 1 - tailLen
    if 0 < i ∧ i < cs.length - 1 then ⟨cs.drop i⟩ else ""

/-- config.py: TOP_K_RESULTS. -/
def TOP_K_RESULTS : Nat := 9

/-- The chunk `Document` built by `DocumentManager.load_document` for the
enumerated chunk `ic = (i, chunk_text)` of a file with `total` chunks.
Note the metadata keys: `source`, `chunk`, `total_chunks` — there is no
`filename` key. -/
def mkChunkDoc (name : String) (total : Nat) (ic : Nat × String) : Document :=
  { page_content := ic.2,
    metadata := [("source", MetaVal.str name),
                 ("chunk", MetaVal.nat ic.1),
                 ("total_chunks", MetaVal.nat total)] }

/-- `DocumentManager.load_document`.  The text splitter is the external
`RecursiveCharacterTextSplitter.split_text`, passed as `splitText`; reading
the file (or extracting the PDF text) is I/O and yields `text`.  Both the
`.pdf` and the `.txt` branch produce the raw text, so they are merged; any
other extension raises `ValueError`, modelled as `Except.error` with the
exact message. -/
def load_document (splitText : String → List String) (filepath : String)
    (text : String) : Except String (List Document) :=
  if lowerStr (pathSuffix (pathName filepath)) = ".pdf" ∨
     lowerStr (pathSuffix (pathName filepath)) = ".txt" then
    Except.ok ((splitText text).enum.map
      (mkChunkDoc (pathName filepath) (splitText text).length))
  else
    Except.error ("Unsupported file type: " ++ lowerStr (pathSuffix (pathName filepath)))

/-- The FAISS vector store, modelled by the ordered values of
`vectorstore.docstore._dict`. -/
structure VectorStore where
  docstore : List Document
deriving DecidableEq, Repr

/-- The fallible external FAISS operations used by
`delete_document_from_vectorstore`: `FAISS.from_documents` (the rebuild)
and `save_local`. -/
structure Faiss where
  fromDocuments : List Document → Except String VectorStore
  saveLocal : VectorStore → Except String Unit

/-- The chunks kept by the deletion loop of
`RAGEngine.delete_document_from_vectorstore`: every docstore entry whose
`metadata.get("filename")` differs from the deleted filename. -/
def remaining_docs (vs : VectorStore) (filename : String) : List Document :=
  vs.docstore.filter (fun d => !(d.metaGet "filename" == some (MetaVal.str filename)))

/-- `RAGEngine.delete_document_from_vectorstore`.  Returns the Python
return value paired with the vector store afterwards (`none` models
`self.vectorstore is None`).  When `FAISS.from_documents` raises, the old
store is still in place; when `save_local` raises, the rebuilt store has
already been assigned to `self.vectorstore`. -/
def delete_document_from_vectorstore (faiss : Faiss) (st : Option VectorStore)
    (filename : String) : Bool × Option VectorStore :=
  match st with
  | none => (false, none)
  | some vs =>
      let remaining := remaining_docs vs filename
      if remaining.length = 0 then
        (true, none)
      else
        match faiss.fromDocuments remaining with
        | Except.error _ => (false, some vs)
        | Except.ok vs2 =>
            match faiss.saveLocal vs2 with
            | Except.error _ => (false, some vs2)
            | Except.ok _ => (true, some vs2)

/-! ### The filename-extraction regex

`RAGEngine._extract_filename_from_query` runs
`re.search(r"\b(\w+\.(txt|pdf))\b", query, re.IGNORECASE)` and returns
group 1 of the first match.  The scanner below is an operational
translation of that search on char lists (ASCII `\w`). -/

/-- Python regex `\w` (ASCII): letters, digits, underscore. -/
def isWordChar (c : Char) : Bool := c.isAlpha || c.isDigit || c = '_'

/-- `(txt|pdf)` under `re.IGNORECASE`: tries to read the three extension
characters off the front of the list, returning them (original casing,
as `re` reports the matched text) and the rest. -/
def extOf : List Char → Option (List Char × List Char)
  | a :: b :: c :: rest =>
      if (a.toLower = 't' ∧ b.toLower = 'x' ∧ c.toLower = 't') ∨
         (a.toLower = 'p' ∧ b.toLower = 'd' ∧ c.toLower = 'f') then
        some ([a, b, c], rest)
      else none
  | _ => none

/-- The trailing `\b` of the pattern: the next character (if any) is not a
word character. -/
def boundaryOkB : List Char → Bool
  | [] => true
  | c :: _ => !(isWordChar c)

/-- Attempts to match `\w+\.(txt|pdf)\b` exactly at the head of `l`
(the greedy `\w+` necessarily takes the maximal word-character run, since
backtracking would place a word character where the literal dot must
match).  Returns the text of group 1. -/
def matchFilenameAt (l : List Char) : Option (List Char) :=
  match l.dropWhile isWordChar with
  | c :: r2 =>
      if c = '.' then
        if (l.takeWhile isWordChar).isEmpty then none
        else
          match extOf r2 with
          | some (ext, tl) =>
              if boundaryOkB tl then some (l.takeWhile isWordChar ++ '.' :: ext)
              else none
          | none => none
      else none
  | [] => none

/-- The leading `\b` before `\w+`: the previous character (if any) is not a
word character.  `none` stands for the start of the string. -/
def prevOkB : Option Char → Bool
  | none => true
  | some p => !(isWordChar p)

/-- `re.search`: scan positions left to right, carrying the previous
character for the word-boundary test, and return the first match. -/
def searchFrom (prev : Option Char) : List Char → Option (List Char)
  | [] => none
  | c :: rest =>
      if prevOkB prev then
        match matchFilenameAt (c :: rest) with
        | some m => some m
        | none => searchFrom (some c) rest
      else searchFrom (some c) rest

/-- `RAGEngine._extract_filename_from_query`. -/
def extract_filename_from_query (query : String) : Option String :=
  (searchFrom none query.data).map (fun cs => ⟨cs⟩)

/-- `re.sub(r"\b\w+\.(txt|pdf)\b", "", query, flags=re.IGNORECASE)`:
removes every non-overlapping match, scanning the original string left to
right.  A matched text is nonempty (it begins with a word character), so
after a match of length `n` at `c :: rest` the scan resumes at
`rest.drop (n-1)`, with the last matched character as the new previous
character. -/
def subFilenames (prev : Option Char) (l : List Char) : List Char :=
  match l with
  | [] => []
  | c :: rest =>
      if prevOkB prev then
        match matchFilenameAt (c :: rest) with
        | some m => subFilenames m.getLast? (rest.drop (m.length - 1))
        | none => c :: subFilenames (some c) rest
      else c :: subFilenames (some c) rest
termination_by l.length
decreasing_by
  · simp only [List.length_drop, List.length_cons]
    omega
  · simp
  · simp

/-- The `generic_patterns` dict of
`RAGEngine._reformulate_query_for_search`.  Each regex key is an
alternation of literal words, so matching it against the lowered query is
substring containment of one of the alternatives. -/
def generic_patterns : List (List String × String) :=
  [(["summarize", "summarise", "summary"], "summary of main topics and key points"),
   (["what is in", "what\x27s in", "content of"], "comprehensive overview of content"),
   (["tell me about"], "explain"),
   (["overview of"], "main information about")]

/-- `RAGEngine._reformulate_query_for_search`. -/
def reformulate_query_for_search (query : String) (filename : Option String) :
    String :=
  let search_query :=
    match filename with
    | some _ => strip ⟨subFilenames none query.data⟩
    | none => query
  match generic_patterns.find?
      (fun pr => pr.1.any (fun pat => pyIn pat (lowerStr search_query))) with
  | some pr => strip (search_query ++ ", " ++ pr.2)
  | none => search_query

/-! ### Declarative reading of the extraction pattern

The claim describes the extraction as: the first substring consisting of
word characters followed by `.txt` or `.pdf`, matched case-insensitively
at word boundaries.  The following predicates state that reading, to be
compared with the operational scanner above. -/

/-- The extension spells `txt` or `pdf` case-insensitively. -/
def ExtShape (ext : List Char) : Prop :=
  ext.map Char.toLower = ['t', 'x', 't'] ∨ ext.map Char.toLower = ['p', 'd', 'f']

/-- The matched text: one or more word characters, a dot, an extension. -/
def MatchShape (m : List Char) : Prop :=
  ∃ w ext, m = w ++ '.' :: ext ∧ w ≠ [] ∧ (∀ c ∈ w, isWordChar c = true) ∧
    ExtShape ext

/-- Trailing word boundary: what follows the match starts with a non-word
character (or nothing). -/
def BoundaryAfter (post : List Char) : Prop :=
  ∀ c ∈ post.head?, isWordChar c = false

/-- Leading word boundary, as a property of the preceding character
(`none` at the start of the string). -/
def PrevOk (p : Option Char) : Prop := ∀ c ∈ p, isWordChar c = false

/-- The character immediately preceding a match after prefix `pre`, when
the character before the whole scanned list is `prev`. -/
def lastOr (pre : List Char) (prev : Option Char) : Option Char :=
  match pre with
  | [] => prev
  | p :: rest => lastOr rest (some p)

/-- `m` occurs in `l` right after the prefix `pre`, matching the pattern
with both word boundaries (`prev` is the character preceding `l`). -/
def MatchFrom (prev : Option Char) (l m pre : List Char) : Prop :=
  ∃ post, l = pre ++ m ++ post ∧ MatchShape m ∧ BoundaryAfter post ∧
    PrevOk (lastOr pre prev)

/-! ### Retrieval and the query pipeline -/

/-- `vectorstore.similarity_search(q, k=..., filter={key: val}, fetch_k=...)`
of langchain FAISS: the external embedding-similarity ranking of the
docstore is the parameter `rank` (a function of the search query); the
library takes the `fetch_k` nearest candidates, keeps those whose
`metadata.get(key)` equals the filter value, and returns at most `k`. -/
def similarity_search (rank : List Document → List Document) (vs : VectorStore)
    (k fetch_k : Nat) (filt : String × String) : List Document :=
  (((rank vs.docstore).take fetch_k).filter
      (fun d => d.metaGet filt.1 == some (MetaVal.str filt.2))).take k

/-- One entry of the `sources` list built by `RAGEngine.query`. -/
structure SourceEntry where
  content : String
  source : MetaVal
  filename : MetaVal
  chunk : MetaVal
  file_type : MetaVal
deriving DecidableEq, Repr

/-- The result dict of `RAGEngine.query` (`chunks_retrieved` is `none`
for the return dicts that omit the key). -/
structure QueryResult where
  answer : String
  sources : List SourceEntry
  filtered_by : Option String
  chunks_retrieved : Option Nat
deriving DecidableEq, Repr

/-- The source-entry dict built for one retrieved chunk (both branches of
`RAGEngine.query` build it the same way). -/
def mkSource (doc : Document) : SourceEntry :=
  { content := (⟨doc.page_content.data.take 200⟩ : String) ++ "...",
    source := doc.metaGetD "source" (MetaVal.str "Unknown"),
    filename := doc.metaGetD "filename" (MetaVal.str "Unknown"),
    chunk := doc.metaGetD "chunk" (MetaVal.nat 0),
    file_type := doc.metaGetD "file_type" (MetaVal.str "unknown") }

/-- The f-string prompt built in the filtered branch of `RAGEngine.query`. -/
def query_prompt (context_text search_query : String) : String :=
  "You are a helpful AI assistant answering questions based on provided documents.\n\nUse ONLY the following context to answer the question. If the answer is not in the context, say \"I cannot find this information in the provided documents.\"\n\nBe concise and accurate. Cite specific parts of the context when possible.\n\nContext: "
  ++ context_text ++ "\n\nQuestion: " ++ search_query

/-- The `except Exception` handler of `RAGEngine.query` (lines 312-334):
maps the exception text to a canned result dict with empty sources. -/
def handle_query_exception (e : String) : QueryResult :=
  if pyIn "rate_limit" (lowerStr e) then
    { answer := "Rate limit exceeded. Please wait a moment and try again. (Groq free tier: 30 requests/min)",
      sources := [], filtered_by := none, chunks_retrieved := none }
  else if pyIn "api_key" (lowerStr e) || pyIn "authentication" (lowerStr e) then
    { answer := "API authentication error. Please check your GROQ_API_KEY in the .env file.",
      sources := [], filtered_by := none, chunks_retrieved := none }
  else
    { answer := "Error processing query: " ++ e,
      sources := [], filtered_by := none, chunks_retrieved := none }

/-- Output of the external `rag_chain.invoke` (answer text and the
retrieved context documents). -/
structure ChainOutput where
  answer : String
  context : List Document
deriving DecidableEq, Repr

/-- `RAGEngine.query`.  External calls are parameters: `llm` is
`self.llm.invoke` on a prompt, `chain` is `self.rag_chain.invoke`, `rank`
is the embedding-similarity ordering used by `similarity_search` for a
given search query; each may raise (`Except.error` carries `str(e)`).
The method never assigns engine state, so the state is returned
unchanged in every branch. -/
def query (llm : String → Except String String)
    (chain : String → Except String ChainOutput)
    (rank : String → List Document → List Document)
    (st : Option VectorStore) (question : String) :
    QueryResult × Option VectorStore :=
  match st with
  | none =>
      ({ answer := "No documents indexed yet. Please upload a document first.",
         sources := [], filtered_by := none, chunks_retrieved := none }, none)
  | some vs =>
      match extract_filename_from_query question with
      | some target_filename =>
          let search_query := reformulate_query_for_search question (some target_filename)
          let filtered_docs := similarity_search (rank search_query) vs
              TOP_K_RESULTS 200 ("filename", target_filename)
          if filtered_docs.length = 0 then
            ({ answer := "No relevant information found in " ++ target_filename ++
                 ". The file might be empty or the question might not match the content.",
               sources := [], filtered_by := some target_filename,
               chunks_retrieved := some 0 }, some vs)
          else
            let context_text :=
              String.intercalate "\n\n" (filtered_docs.map Document.page_content)
            match llm (query_prompt context_text search_query) with
            | Except.error e => (handle_query_exception e, some vs)
            | Except.ok content =>
                let sources := filtered_docs.map mkSource
                ({ answer := content, sources := sources,
                   filtered_by := some target_filename,
                   chunks_retrieved := some sources.length }, some vs)
      | none =>
          match chain question with
          | Except.error e => (handle_query_exception e, some vs)
          | Except.ok out =>
              let sources := out.context.map mkSource
              ({ answer := out.answer, sources := sources,
                 filtered_by := none,
                 chunks_retrieved := some sources.length }, some vs)

/-! ### The REST layer (src/backend/main.py)

Application state: the filenames present in the upload directory plus the
engine state.  Saving, deleting and listing files are the only filesystem
effects the claims mention. -/

structure AppState where
  files : List String
  vectorstore : Option VectorStore
deriving DecidableEq, Repr

/-- The Python exceptions that appear in the endpoints under study. -/
inductive PyExc where
  | http (status : Nat) (detail : String)
  | valueError (msg : String)
deriving DecidableEq, Repr

/-- `str(e)` for those exceptions (Starlette `HTTPException.__str__` is
`"{status_code}: {detail}"`; `ValueError` prints its message). -/
def str_of_exc : PyExc → String
  | PyExc.http s d => toString s ++ ": " ++ d
  | PyExc.valueError m => m

/-- Response of the upload endpoint: success dict or an HTTP error. -/
inductive UploadResult where
  | ok (message : String) (chunks : Nat)
  | httpError (status : Nat) (detail : String)
deriving DecidableEq, Repr

/-- `RAGEngine.index_documents`: create the store or append to it
(`FAISS.from_documents` / `add_documents`). -/
def index_documents (st : Option VectorStore) (docs : List Document) :
    Option VectorStore :=
  match st with
  | none => some ⟨docs⟩
  | some vs => some ⟨vs.docstore ++ docs⟩

/-- `POST /upload` (`upload_document` in main.py).  Note that the
`HTTPException(400)` raised for a bad extension is itself caught by the
blanket `except Exception` of the same endpoint (there is no
`except HTTPException: raise` arm here, unlike the delete endpoint), so it
is re-raised as `HTTPException(500, str(e))`. -/
def upload_document_endpoint (splitText : String → List String)
    (st : AppState) (filename text : String) : UploadResult × AppState :=
  if !(ends_with filename ".pdf" || ends_with filename ".txt") then
    (UploadResult.httpError 500
      (str_of_exc (PyExc.http 400 "Only PDF and TXT files are supported")), st)
  else
    let files2 := if filename ∈ st.files then st.files else st.files ++ [filename]
    match load_document splitText filename text with
    | Except.error m =>
        (UploadResult.httpError 500 (str_of_exc (PyExc.valueError m)),
         { st with files := files2 })
    | Except.ok docs =>
        (UploadResult.ok ("Successfully uploaded and indexed " ++ filename)
          docs.length,
         { files := files2, vectorstore := index_documents st.vectorstore docs })

/-- `DocumentManager.delete_document`: unlink the file if present,
reporting whether it existed. -/
def dm_delete_document (files : List String) (filename : String) :
    Bool × List String :=
  if filename ∈ files then (true, files.erase filename) else (false, files)

/-- Response of the delete endpoint. -/
inductive DeleteResult where
  | ok (message : String) (file_deleted vectorstore_updated : Bool)
  | httpError (status : Nat) (detail : String)
deriving DecidableEq, Repr

/-- `DELETE /documents/{filename}` (`delete_document` in main.py).
The filesystem delete happens first; a missing file raises
`HTTPException(404)`, which the `except HTTPException: raise` arm lets
through; otherwise the vector-store cleanup is attempted and its boolean
outcome is reported in the response. -/
def delete_document_endpoint (faiss : Faiss) (st : AppState)
    (filename : String) : DeleteResult × AppState :=
  let fd := dm_delete_document st.files filename
  if fd.1 = false then
    (DeleteResult.httpError 404 "Document not found", { st with files := fd.2 })
  else
    let vd := delete_document_from_vectorstore faiss st.vectorstore filename
    if vd.1 then
      (DeleteResult.ok ("Deleted " ++ filename) true true,
       { files := fd.2, vectorstore := vd.2 })
    else
      (DeleteResult.ok ("Deleted " ++ filename ++ " (file only, vectorstore cleanup failed)")
         true false,
       { files := fd.2, vectorstore := vd.2 })

/-! ### Concrete fixtures used by the closed theorems -/

/-- A degenerate splitter producing a single chunk (the concrete
behaviour of the external splitter is irrelevant to the claims). -/
def splitWhole : String → List String := fun t => [t]

/-- The chunk produced by loading `story.txt`. -/
def storyDoc : Document :=
  { page_content := "Once upon a time there was a dragon.",
    metadata := [("source", MetaVal.str "story.txt"),
                 ("chunk", MetaVal.nat 0),
                 ("total_chunks", MetaVal.nat 1)] }

/-- A vector store holding exactly the indexed chunks of `story.txt`. -/
def vsStory : VectorStore := ⟨[storyDoc]⟩

/-- A FAISS stub whose rebuild and save succeed (`from_documents` yields a
store over exactly the given chunks). -/
def okFaiss : Faiss :=
  { fromDocuments := fun ds => Except.ok ⟨ds⟩,
    saveLocal := fun _ => Except.ok () }

/-- A FAISS stub whose rebuild raises. -/
def failFaiss : Faiss :=
  { fromDocuments := fun _ => Except.error "disk full",
    saveLocal := fun _ => Except.error "disk full" }

/-- The chunk produced by loading `notes.txt` with content `hello`. -/
def helloDoc : Document :=
  { page_content := "hello",
    metadata := [("source", MetaVal.str "notes.txt"),
                 ("chunk", MetaVal.nat 0),
                 ("total_chunks", MetaVal.nat 1)] }

/-! ## Helper lemmas -/

lemma load_document_ok_eq {splitText : String → List String} {filepath text : String}
    {docs : List Document} (h : load_document splitText filepath text = Except.ok docs) :
    docs = (splitText text).enum.map
      (mkChunkDoc (pathName filepath) (splitText text).length) := by
  unfold load_document at h
  split at h
  · exact (Except.ok.inj h).symm
  · exact absurd h (by simp)

lemma metaGet_mkChunkDoc_source (name : String) (total : Nat) (ic : Nat × String) :
    (mkChunkDoc name total ic).metaGet "source" = some (MetaVal.str name) := rfl

lemma metaGet_mkChunkDoc_chunk (name : String) (total : Nat) (ic : Nat × String) :
    (mkChunkDoc name total ic).metaGet "chunk" = some (MetaVal.nat ic.1) := rfl

lemma metaGet_mkChunkDoc_total (name : String) (total : Nat) (ic : Nat × String) :
    (mkChunkDoc name total ic).metaGet "total_chunks" = some (MetaVal.nat total) := rfl

lemma leadsWith_map (f : Char → Char) :
    ∀ pat l, leadsWith pat l = true → leadsWith (pat.map f) (l.map f) = true := by
  intro pat
  induction pat with
  | nil => intro l _; rfl
  | cons a as ih =>
      intro l h
      cases l with
      | nil => simp [leadsWith] at h
      | cons b bs =>
          simp only [leadsWith, Bool.and_eq_true, beq_iff_eq] at h
          simp only [List.map_cons, leadsWith, Bool.and_eq_true, beq_iff_eq]
          exact ⟨by rw [h.1], ih bs h.2⟩

lemma hasSub_map (f : Char → Char) (pat : List Char) :
    ∀ l, hasSub pat l = true → hasSub (pat.map f) (l.map f) = true := by
  intro l
  induction l with
  | nil =>
      simp only [hasSub, List.isEmpty_iff]
      intro h
      simp [h, hasSub]
  | cons c rest ih =>
      simp only [hasSub, List.map_cons, Bool.or_eq_true]
      rintro (h | h)
      · exact Or.inl (by simpa using leadsWith_map f pat (c :: rest) h)
      · exact Or.inr (ih h)

lemma pyIn_lower_of_pyIn {pat : String} (hpat : pat.data.map Char.toLower = pat.data)
    (e : String) (h : pyIn pat e = true) : pyIn pat (lowerStr e) = true := by
  unfold pyIn at h ⊢
  have h2 := hasSub_map Char.toLower pat.data e.data h
  rwa [hpat] at h2

lemma handle_query_exception_shape (e : String) :
    (handle_query_exception e).sources = [] ∧
    (handle_query_exception e).filtered_by = none := by
  unfold handle_query_exception
  split
  · exact ⟨rfl, rfl⟩
  · split
    · exact ⟨rfl, rfl⟩
    · exact ⟨rfl, rfl⟩

/-- With oracles that always raise, `query` only ever produces the
no-store dict, the no-relevant-chunks dict, or the exception handler
output. -/
lemma query_error_cases (rank : String → List Document → List Document)
    (st : Option VectorStore) (q e : String) :
    (query (fun _ => Except.error e) (fun _ => Except.error e) rank st q).1
        = { answer := "No documents indexed yet. Please upload a document first.",
            sources := [], filtered_by := none, chunks_retrieved := none }
    ∨ (∃ f, (query (fun _ => Except.error e) (fun _ => Except.error e) rank st q).1
        = { answer := "No relevant information found in " ++ f ++
              ". The file might be empty or the question might not match the content.",
            sources := [], filtered_by := some f, chunks_retrieved := some 0 })
    ∨ (query (fun _ => Except.error e) (fun _ => Except.error e) rank st q).1
        = handle_query_exception e := by
  cases st with
  | none => exact Or.inl rfl
  | some vs =>
      simp only [query]
      cases hE : extract_filename_from_query q with
      | some f =>
          dsimp only
          split
          · exact Or.inr (Or.inl ⟨f, rfl⟩)
          · exact Or.inr (Or.inr rfl)
      | none => exact Or.inr (Or.inr rfl)

/-! ## Claims -/

/-- C4: For every document loaded via `load_document`, the chunk ordinal
indices recorded in the produced chunks are contiguous per file: they are
exactly 0, 1, ..., n-1 where n is the number of chunks, and each chunk
records `total_chunks = n`. -/
theorem c4_chunk_ordinals_contiguous (splitText : String → List String)
    (filepath text : String) (docs : List Document)
    (h : load_document splitText filepath text = Except.ok docs) :
    docs.map (fun d => d.metaGet "chunk")
      = (List.range docs.length).map (fun i => some (MetaVal.nat i)) ∧
    ∀ d ∈ docs, d.metaGet "total_chunks" = some (MetaVal.nat docs.length) := by
  have hd := load_document_ok_eq h
  subst hd
  constructor
  · simp only [List.map_map, List.length_map, List.enum_length]
    rw [← List.enum_map_fst (splitText text), List.map_map]
    exact List.map_congr_left fun a _ => rfl
  · intro d hd
    obtain ⟨ic, _, rfl⟩ := List.mem_map.1 hd
    simp only [List.length_map, List.enum_length]
    exact metaGet_mkChunkDoc_total _ _ _

/-- Witness for C4 at a concrete loaded document. -/
theorem c4_witness :
    [storyDoc].map (fun d => d.metaGet "chunk")
      = (List.range [storyDoc].length).map (fun i => some (MetaVal.nat i)) :=
  (c4_chunk_ordinals_contiguous splitWhole "story.txt"
    "Once upon a time there was a dragon." [storyDoc] (by decide)).1

/-- C8: For every question, when no vector store exists, `query` returns
the exact canned answer with empty sources and `filtered_by` `None`, and
leaves all engine state unchanged (indeed `query` never changes state). -/
theorem c8_query_without_vectorstore (llm : String → Except String String)
    (chain : String → Except String ChainOutput)
    (rank : String → List Document → List Document) (question : String) :
    query llm chain rank none question =
      ({ answer := "No documents indexed yet. Please upload a document first.",
         sources := [], filtered_by := none, chunks_retrieved := none }, none) ∧
    ∀ st, (query llm chain rank st question).2 = st := by
  refine ⟨rfl, ?_⟩
  intro st
  cases st with
  | none => rfl
  | some vs =>
      simp only [query]
      cases hE : extract_filename_from_query question with
      | some f =>
          dsimp only
          split
          · rfl
          · cases hL : llm (query_prompt (String.intercalate "\n\n"
              ((similarity_search (rank (reformulate_query_for_search question (some f)))
                vs TOP_K_RESULTS 200 ("filename", f)).map Document.page_content))
              (reformulate_query_for_search question (some f))) <;>
              simp [hL]
      | none =>
          cases hC : chain question <;> simp [hC]

/-- C9: `delete_document_from_vectorstore` is total and returns a boolean
for every input: `False` when no vector store exists or when an exception
occurs during the rebuild (`from_documents`) or the save (`save_local`),
never propagating the exception; and when every chunk would be removed it
clears the whole index and returns `True`. -/
theorem c9_delete_total_boolean (faiss : Faiss) (f : String) :
    delete_document_from_vectorstore faiss none f = (false, none) ∧
    ∀ vs : VectorStore,
      (remaining_docs vs f = [] →
        delete_document_from_vectorstore faiss (some vs) f = (true, none)) ∧
      (∀ msg, remaining_docs vs f ≠ [] →
        faiss.fromDocuments (remaining_docs vs f) = Except.error msg →
        delete_document_from_vectorstore faiss (some vs) f = (false, some vs)) ∧
      (∀ vs2 msg, remaining_docs vs f ≠ [] →
        faiss.fromDocuments (remaining_docs vs f) = Except.ok vs2 →
        faiss.saveLocal vs2 = Except.error msg →
        delete_document_from_vectorstore faiss (some vs) f = (false, some vs2)) ∧
      (∀ vs2, remaining_docs vs f ≠ [] →
        faiss.fromDocuments (remaining_docs vs f) = Except.ok vs2 →
        faiss.saveLocal vs2 = Except.ok () →
        delete_document_from_vectorstore faiss (some vs) f = (true, some vs2)) := by
  refine ⟨rfl, fun vs => ⟨?_, ?_, ?_, ?_⟩⟩
  · intro h0
    simp [delete_document_from_vectorstore, h0]
  · intro msg hne hf
    simp [delete_document_from_vectorstore, List.length_eq_zero, hne, hf]
  · intro vs2 msg hne hf hs
    simp [delete_document_from_vectorstore, List.length_eq_zero, hne, hf, hs]
  · intro vs2 hne hf hs
    simp [delete_document_from_vectorstore, List.length_eq_zero, hne, hf, hs]

/-- Witness for C9: a failing rebuild at a concrete store yields `False`
and keeps the store. -/
theorem c9_witness :
    delete_document_from_vectorstore failFaiss (some vsStory) "story.txt"
      = (false, some vsStory) :=
  ((c9_delete_total_boolean failFaiss "story.txt").2 vsStory).2.1 "disk full"
    (by decide) (by decide)

/-- C10: the DELETE endpoint is not atomic and orders its effects
filesystem-first: a missing file yields 404 with all state untouched; an
existing file is removed from the file list before the vector-store update
is attempted, and a failing update is reported as `file_deleted = true`,
`vectorstore_updated = false`. -/
theorem c10_delete_endpoint_filesystem_first (faiss : Faiss) (st : AppState)
    (f : String) :
    (f ∉ st.files →
      delete_document_endpoint faiss st f
        = (DeleteResult.httpError 404 "Document not found", st)) ∧
    (f ∈ st.files →
      (delete_document_endpoint faiss st f).2.files = st.files.erase f ∧
      (delete_document_endpoint faiss st f).2.vectorstore
        = (delete_document_from_vectorstore faiss st.vectorstore f).2 ∧
      ((delete_document_from_vectorstore faiss st.vectorstore f).1 = false →
        (delete_document_endpoint faiss st f).1
          = DeleteResult.ok ("Deleted " ++ f ++ " (file only, vectorstore cleanup failed)")
              true false) ∧
      ((delete_document_from_vectorstore faiss st.vectorstore f).1 = true →
        (delete_document_endpoint faiss st f).1
          = DeleteResult.ok ("Deleted " ++ f) true true)) := by
  constructor
  · intro hnot
    simp [delete_document_endpoint, dm_delete_document, hnot]
  · intro hin
    rcases hvd : delete_document_from_vectorstore faiss st.vectorstore f with ⟨b, vs2⟩
    cases b <;>
      simp [delete_document_endpoint, dm_delete_document, hin, hvd]

/-- Witness for C10: deleting an existing file with a successful
vector-store update reports both effects. -/
theorem c10_witness :
    (delete_document_endpoint okFaiss ⟨["story.txt"], some vsStory⟩ "story.txt").1
      = DeleteResult.ok ("Deleted " ++ "story.txt") true true :=
  (((c10_delete_endpoint_filesystem_first okFaiss ⟨["story.txt"], some vsStory⟩
      "story.txt").2 (by decide)).2.2.2) (by decide)

/-- C1 (code bug): `delete_document_from_vectorstore "story.txt"` returns
`True` on a store holding exactly the indexed chunks of `story.txt` (as
produced by `load_document`), yet every one of those chunks remains
afterwards: the deletion loop tests `metadata.get("filename")`, a key
`load_document` never writes (the parent filename is under `source`), so
nothing is ever filtered out. -/
theorem c1_delete_removes_nothing :
    delete_document_from_vectorstore okFaiss (some vsStory) "story.txt"
      = (true, some vsStory) ∧
    load_document splitWhole "story.txt" "Once upon a time there was a dragon."
      = Except.ok vsStory.docstore ∧
    vsStory.docstore.length = 1 ∧
    vsStory.docstore.all
      (fun d => d.metaGet "source" == some (MetaVal.str "story.txt")) = true := by
  exact ⟨by decide, by decide, by decide, by decide⟩

/-- C2 (code bug): on a store holding the indexed chunks of `story.txt`,
the query `What is in story.txt?` extracts the filename, but the filtered
retrieval matches on the absent `filename` metadata key, so zero chunks
are retrieved and the canned `No relevant information found` answer is
returned with empty sources — the LLM is never consulted. -/
theorem c2_filtered_retrieval_returns_nothing :
    (query (fun _ => Except.ok "LLM ANSWER") (fun _ => Except.ok ⟨"CHAIN ANSWER", []⟩)
        (fun _ l => l) (some vsStory) "What is in story.txt?").1
      = { answer := "No relevant information found in story.txt. The file might be empty or the question might not match the content.",
          sources := [], filtered_by := some "story.txt", chunks_retrieved := some 0 } ∧
    extract_filename_from_query "What is in story.txt?" = some "story.txt" ∧
    vsStory.docstore.length = 1 ∧
    vsStory.docstore.all
      (fun d => d.metaGet "source" == some (MetaVal.str "story.txt")) = true := by
  exact ⟨by decide, by decide, by decide, by decide⟩

/-- C3 counterexample: the chunk loaded from a five-character text carries
no field holding its character length 5 — the fourth recorded field is the
total chunk count, not the character length. -/
theorem c3_counterexample :
    load_document splitWhole "notes.txt" "hello" = Except.ok [helloDoc] ∧
    helloDoc.page_content.length = 5 ∧
    helloDoc.metadata.all (fun p => !(p.2 == MetaVal.nat 5)) = true := by
  exact ⟨by decide, by decide, by decide⟩

/-- C3 (amended): every chunk produced by loading a document carries its
parent filename (metadata `source`), its ordinal index (metadata `chunk`),
its text (`page_content`), and the total chunk count of its file (metadata
`total_chunks`); the character length is determined by the text but not
stored. -/
theorem c3_chunk_fields (splitText : String → List String)
    (filepath text : String) (docs : List Document)
    (h : load_document splitText filepath text = Except.ok docs)
    (i : Nat) (hi : i < docs.length) :
    docs[i].metaGet "source" = some (MetaVal.str (pathName filepath)) ∧
    docs[i].metaGet "chunk" = some (MetaVal.nat i) ∧
    docs[i].metaGet "total_chunks" = some (MetaVal.nat docs.length) ∧
    docs[i].page_content = (splitText text).getD i "" := by
  have hd := load_document_ok_eq h
  subst hd
  have hlen : i < (splitText text).length := by simpa using hi
  simp only [List.getElem_map, List.getElem_enum, List.length_map, List.enum_length]
  refine ⟨rfl, rfl, rfl, ?_⟩
  rw [List.getD_eq_getElem?_getD, List.getElem?_eq_getElem hlen]
  rfl

/-- Witness for C3 at a concrete loaded chunk. -/
theorem c3_witness :
    helloDoc.metaGet "source" = some (MetaVal.str "notes.txt") ∧
    helloDoc.metaGet "chunk" = some (MetaVal.nat 0) ∧
    helloDoc.metaGet "total_chunks" = some (MetaVal.nat 1) ∧
    helloDoc.page_content = (splitWhole "hello").getD 0 "" :=
  c3_chunk_fields splitWhole "notes.txt" "hello" [helloDoc] (by decide) 0 (by decide)

/-- C6 (code bug): uploading `notes.docx` makes the endpoint respond with
HTTP 500 (its own `HTTPException(400)` is caught by the blanket
`except Exception` and re-raised as 500), not 400; no chunking or indexing
occurs (state unchanged), and `load_document` itself raises for the
unsupported extension. -/
theorem c6_upload_bad_extension_gives_500 :
    upload_document_endpoint splitWhole ⟨[], none⟩ "notes.docx" "hello"
      = (UploadResult.httpError 500 "400: Only PDF and TXT files are supported",
         ⟨[], none⟩) ∧
    load_document splitWhole "notes.docx" "hello"
      = Except.error "Unsupported file type: .docx" := by
  exact ⟨by decide, by decide⟩

/-- C5: `query` never propagates an exception: with oracles that always
raise, every result is a canned dict with empty sources; the handler maps
an error text containing `rate_limit` (checked on the lowered text, and
containment survives lowering) to the rate-limit message, else one
containing `api_key` or `authentication` to the authentication message,
and otherwise to the `Error processing query` string. -/
theorem c5_query_catches_exceptions (rank : String → List Document → List Document)
    (st : Option VectorStore) (q e : String) :
    ((query (fun _ => Except.error e) (fun _ => Except.error e) rank st q).1.sources
        = []) ∧
    ((query (fun _ => Except.error e) (fun _ => Except.error e) rank st q).1
        = { answer := "No documents indexed yet. Please upload a document first.",
            sources := [], filtered_by := none, chunks_retrieved := none }
      ∨ (∃ f, (query (fun _ => Except.error e) (fun _ => Except.error e) rank st q).1
          = { answer := "No relevant information found in " ++ f ++
                ". The file might be empty or the question might not match the content.",
              sources := [], filtered_by := some f, chunks_retrieved := some 0 })
      ∨ (query (fun _ => Except.error e) (fun _ => Except.error e) rank st q).1
          = handle_query_exception e) ∧
    (handle_query_exception e).sources = [] ∧
    (handle_query_exception e).filtered_by = none ∧
    (pyIn "rate_limit" (lowerStr e) = true →
      (handle_query_exception e).answer
        = "Rate limit exceeded. Please wait a moment and try again. (Groq free tier: 30 requests/min)") ∧
    (pyIn "rate_limit" (lowerStr e) = false →
      (pyIn "api_key" (lowerStr e) || pyIn "authentication" (lowerStr e)) = true →
      (handle_query_exception e).answer
        = "API authentication error. Please check your GROQ_API_KEY in the .env file.") ∧
    (pyIn "rate_limit" (lowerStr e) = false →
      (pyIn "api_key" (lowerStr e) || pyIn "authentication" (lowerStr e)) = false →
      (handle_query_exception e).answer = "Error processing query: " ++ e) ∧
    (pyIn "rate_limit" e = true → pyIn "rate_limit" (lowerStr e) = true) ∧
    (pyIn "api_key" e = true → pyIn "api_key" (lowerStr e) = true) ∧
    (pyIn "authentication" e = true → pyIn "authentication" (lowerStr e) = true) := by
  refine ⟨?_, query_error_cases rank st q e,
    (handle_query_exception_shape e).1, (handle_query_exception_shape e).2,
    ?_, ?_, ?_, pyIn_lower_of_pyIn (by decide) e, pyIn_lower_of_pyIn (by decide) e,
    pyIn_lower_of_pyIn (by decide) e⟩
  · rcases query_error_cases rank st q e with h | ⟨f, h⟩ | h <;> rw [h]
    exact (handle_query_exception_shape e).1
  · intro h1
    simp [handle_query_exception, h1]
  · intro h1 h2
    simp [handle_query_exception, h1, h2]
  · intro h1 h2
    simp only [Bool.or_eq_false_iff] at h2
    simp [handle_query_exception, h1, h2.1, h2.2]

/-- Witness for C5: a concrete authentication error is mapped to the
authentication message. -/
theorem c5_witness :
    (handle_query_exception "bad API_KEY here").answer
      = "API authentication error. Please check your GROQ_API_KEY in the .env file." :=
  (c5_query_catches_exceptions (fun _ l => l) none "hi" "bad API_KEY here").2.2.2.2.2.1
    (by decide) (by decide)

/-! ## Lemmas for the extraction scanner (C7) -/

lemma matchShape_ne_nil {m : List Char} (h : MatchShape m) : m ≠ [] := by
  obtain ⟨w, ext, rfl, hw, -, -⟩ := h
  cases w with
  | nil => exact absurd rfl hw
  | cons a as => simp

lemma boundaryOkB_eq_true_iff (post : List Char) :
    boundaryOkB post = true ↔ BoundaryAfter post := by
  cases post with
  | nil => simp [boundaryOkB, BoundaryAfter]
  | cons c rest => simp [boundaryOkB, BoundaryAfter]

lemma prevOkB_eq_true_iff (p : Option Char) : prevOkB p = true ↔ PrevOk p := by
  cases p with
  | none => simp [prevOkB, PrevOk]
  | some c => simp [prevOkB, PrevOk]

lemma takeWhile_word_append (w r2 : List Char)
    (hw : ∀ c ∈ w, isWordChar c = true) :
    (w ++ '.' :: r2).takeWhile isWordChar = w ∧
    (w ++ '.' :: r2).dropWhile isWordChar = '.' :: r2 := by
  induction w with
  | nil => simp [List.takeWhile, List.dropWhile, isWordChar]
  | cons a as ih =>
      have ha : isWordChar a = true := hw a (by simp)
      have ih2 := ih (fun c hc => hw c (by simp [hc]))
      simp [List.takeWhile, List.dropWhile, ha, ih2.1, ih2.2]

lemma extOf_some {r2 ext tl : List Char} (h : extOf r2 = some (ext, tl)) :
    r2 = ext ++ tl ∧ ExtShape ext := by
  rcases r2 with _ | ⟨a, _ | ⟨b, _ | ⟨c, rest⟩⟩⟩
  · exact absurd h (by simp [extOf])
  · exact absurd h (by simp [extOf])
  · exact absurd h (by simp [extOf])
  · simp only [extOf] at h
    split at h
    · rename_i hcond
      have h2 := Option.some.inj h
      obtain ⟨h3, h4⟩ : [a, b, c] = ext ∧ rest = tl :=
        ⟨congrArg Prod.fst h2, congrArg Prod.snd h2⟩
      subst h3
      subst h4
      refine ⟨by simp, ?_⟩
      rcases hcond with ⟨h1, h5, h6⟩ | ⟨h1, h5, h6⟩
      · exact Or.inl (by simp [h1, h5, h6])
      · exact Or.inr (by simp [h1, h5, h6])
    · exact absurd h (by simp)

lemma extOf_of_extShape {ext : List Char} (h : ExtShape ext) (post : List Char) :
    extOf (ext ++ post) = some (ext, post) := by
  have hlen : ext.length = 3 := by
    rcases h with h | h
    · simpa using congrArg List.length h
    · simpa using congrArg List.length h
  match ext, hlen with
  | [a, b, c], _ =>
      rcases h with h | h <;>
        simp only [List.map_cons, List.map_nil, List.cons.injEq, and_true] at h <;>
        simp [extOf, h.1, h.2.1, h.2.2]

lemma matchFilenameAt_some {l m : List Char} (h : matchFilenameAt l = some m) :
    ∃ post, l = m ++ post ∧ MatchShape m ∧ BoundaryAfter post := by
  unfold matchFilenameAt at h
  rcases hd : l.dropWhile isWordChar with _ | ⟨c, r2⟩ <;> rw [hd] at h
  · exact absurd h (by simp)
  · dsimp only at h
    split at h
    · rename_i hc
      subst hc
      split at h
      · exact absurd h (by simp)
      · rename_i hwe
        rcases he : extOf r2 with _ | ⟨ext, tl⟩ <;> rw [he] at h <;> dsimp only at h
        · exact absurd h (by simp)
        · split at h
          · rename_i hb
            obtain rfl := (Option.some.inj h).symm
            obtain ⟨hr2, hext⟩ := extOf_some he
            refine ⟨tl, ?_, ?_, (boundaryOkB_eq_true_iff tl).1 hb⟩
            · conv_lhs => rw [← List.takeWhile_append_dropWhile (p := isWordChar) (l := l)]
              rw [hd, hr2]
              simp
            · exact ⟨l.takeWhile isWordChar, ext,
                rfl, by simpa using hwe,
                fun c hc => List.mem_takeWhile_imp hc, hext⟩
          · exact absurd h (by simp)
    · exact absurd h (by simp)

lemma matchFilenameAt_of_decomp {l m post : List Char} (hl : l = m ++ post)
    (hm : MatchShape m) (hb : BoundaryAfter post) :
    matchFilenameAt l = some m := by
  obtain ⟨w, ext, rfl, hw, hword, hext⟩ := hm
  subst hl
  have hsplit := takeWhile_word_append w (ext ++ post) hword
  have hl2 : (w ++ '.' :: ext) ++ post = w ++ '.' :: (ext ++ post) := by simp
  rw [hl2]
  unfold matchFilenameAt
  rw [hsplit.1, hsplit.2]
  dsimp only
  simp [extOf_of_extShape hext post, (boundaryOkB_eq_true_iff post).2 hb, hw]

lemma lastOr_cons (c : Char) (pre2 : List Char) (prev : Option Char) :
    lastOr (c :: pre2) prev = lastOr pre2 (some c) := rfl

lemma matchFrom_cons {prev : Option Char} {c : Char} {rest m pre2 : List Char}
    (h : MatchFrom (some c) rest m pre2) : MatchFrom prev (c :: rest) m (c :: pre2) := by
  obtain ⟨post, hl, hm, hb, hp⟩ := h
  exact ⟨post, by simp [hl], hm, hb, by rwa [lastOr_cons]⟩

lemma matchFrom_cons_inv {prev : Option Char} {c : Char} {rest m pre : List Char}
    (h : MatchFrom prev (c :: rest) m pre) (hne : pre ≠ []) :
    ∃ pre2, pre = c :: pre2 ∧ MatchFrom (some c) rest m pre2 := by
  obtain ⟨post, hl, hm, hb, hp⟩ := h
  cases pre with
  | nil => exact absurd rfl hne
  | cons p0 pre2 =>
      rw [List.cons_append, List.cons_append] at hl
      obtain ⟨rfl, hrest⟩ := List.cons.inj hl
      exact ⟨pre2, rfl, post, by simpa using hrest, hm, hb, by rwa [lastOr_cons] at hp⟩

lemma matchFrom_nil_pre {prev : Option Char} {l m : List Char} :
    MatchFrom prev l m [] ↔
      (PrevOk prev ∧ ∃ post, l = m ++ post ∧ MatchShape m ∧ BoundaryAfter post) := by
  constructor
  · rintro ⟨post, hl, hm, hb, hp⟩
    exact ⟨hp, post, by simpa using hl, hm, hb⟩
  · rintro ⟨hp, post, hl, hm, hb⟩
    exact ⟨post, by simpa using hl, hm, hb, hp⟩

lemma searchFrom_none (l : List Char) : ∀ prev, searchFrom prev l = none →
    ∀ m pre, ¬ MatchFrom prev l m pre := by
  induction l with
  | nil =>
      intro prev _ m pre hM
      obtain ⟨post, hl, hm, -, -⟩ := hM
      have hm2 := matchShape_ne_nil hm
      have h2 := hl.symm
      rw [List.append_assoc, List.append_eq_nil] at h2
      rw [List.append_eq_nil] at h2
      exact hm2 h2.2.1
  | cons c rest ih =>
      intro prev hs m pre hM
      simp only [searchFrom] at hs
      by_cases hp : prevOkB prev = true
      · rw [if_pos hp] at hs
        rcases hA : matchFilenameAt (c :: rest) with _ | m0 <;> rw [hA] at hs
        · by_cases hpre : pre = []
          · subst hpre
            obtain ⟨-, post, hl, hm2, hb⟩ := matchFrom_nil_pre.1 hM
            have hsome := matchFilenameAt_of_decomp hl hm2 hb
            rw [hA] at hsome
            exact Option.noConfusion hsome
          · obtain ⟨pre2, rfl, hM2⟩ := matchFrom_cons_inv hM hpre
            exact ih (some c) hs m pre2 hM2
        · exact Option.noConfusion hs
      · rw [if_neg hp] at hs
        by_cases hpre : pre = []
        · subst hpre
          obtain ⟨hPrev, -⟩ := matchFrom_nil_pre.1 hM
          exact hp ((prevOkB_eq_true_iff prev).2 hPrev)
        · obtain ⟨pre2, rfl, hM2⟩ := matchFrom_cons_inv hM hpre
          exact ih (some c) hs m pre2 hM2

lemma searchFrom_some (l : List Char) : ∀ prev m, searchFrom prev l = some m →
    ∃ pre, MatchFrom prev l m pre ∧
      ∀ m2 pre2, MatchFrom prev l m2 pre2 → pre.length ≤ pre2.length := by
  induction l with
  | nil => intro prev m hs; exact Option.noConfusion hs
  | cons c rest ih =>
      intro prev m hs
      simp only [searchFrom] at hs
      by_cases hp : prevOkB prev = true
      · rw [if_pos hp] at hs
        rcases hA : matchFilenameAt (c :: rest) with _ | m0 <;> rw [hA] at hs
        · obtain ⟨pre2, hM2, hmin2⟩ := ih (some c) m hs
          refine ⟨c :: pre2, matchFrom_cons hM2, ?_⟩
          intro m3 pre3 hM3
          by_cases hpre3 : pre3 = []
          · subst hpre3
            obtain ⟨-, post, hl, hm3, hb⟩ := matchFrom_nil_pre.1 hM3
            have hsome := matchFilenameAt_of_decomp hl hm3 hb
            rw [hA] at hsome
            exact Option.noConfusion hsome
          · obtain ⟨pre4, rfl, hM4⟩ := matchFrom_cons_inv hM3 hpre3
            simpa using Nat.succ_le_succ (hmin2 m3 pre4 hM4)
        · obtain rfl := Option.some.inj hs
          obtain ⟨post, hl, hm0, hb⟩ := matchFilenameAt_some hA
          refine ⟨[], matchFrom_nil_pre.2
            ⟨(prevOkB_eq_true_iff prev).1 hp, post, hl, hm0, hb⟩, ?_⟩
          intro m2 pre2 _
          exact Nat.zero_le _
      · rw [if_neg hp] at hs
        obtain ⟨pre2, hM2, hmin2⟩ := ih (some c) m hs
        refine ⟨c :: pre2, matchFrom_cons hM2, ?_⟩
        intro m3 pre3 hM3
        by_cases hpre3 : pre3 = []
        · subst hpre3
          obtain ⟨hPrev, -⟩ := matchFrom_nil_pre.1 hM3
          exact absurd ((prevOkB_eq_true_iff prev).2 hPrev) hp
        · obtain ⟨pre4, rfl, hM4⟩ := matchFrom_cons_inv hM3 hpre3
          simpa using Nat.succ_le_succ (hmin2 m3 pre4 hM4)

/-- C7: `extract_filename_from_query` returns the first (leftmost)
substring of word characters followed by `.txt` or `.pdf`, matched
case-insensitively at word boundaries, when one exists, and `None`
otherwise; in particular a filename containing a hyphen or a space is only
partially matched, and one whose stem has no word character is missed. -/
theorem c7_extract_filename_regex :
    (∀ q m, extract_filename_from_query q = some m →
      ∃ pre, MatchFrom none q.data m.data pre ∧
        ∀ m2 pre2, MatchFrom none q.data m2 pre2 → pre.length ≤ pre2.length) ∧
    (∀ q, extract_filename_from_query q = none →
      ∀ m pre, ¬ MatchFrom none q.data m pre) ∧
    extract_filename_from_query "summarize my-file.txt" = some "file.txt" ∧
    extract_filename_from_query "what does my file.txt say" = some "file.txt" ∧
    extract_filename_from_query "check a-.txt" = none := by
  refine ⟨?_, ?_, by decide, by decide, by decide⟩
  · intro q m h
    unfold extract_filename_from_query at h
    rcases hs : searchFrom none q.data with _ | cs <;> rw [hs] at h
    · exact Option.noConfusion h
    · obtain rfl : (⟨cs⟩ : String) = m := Option.some.inj h
      exact searchFrom_some q.data none cs hs
  · intro q h
    unfold extract_filename_from_query at h
    rcases hs : searchFrom none q.data with _ | cs <;> rw [hs] at h
    · exact searchFrom_none q.data none hs
    · exact Option.noConfusion h

/-- Witness for C7: a query with no filename allows no pattern match. -/
theorem c7_witness :
    ¬ MatchFrom none (String.data "no file mentioned here")
      (String.data "a.txt") [] :=
  c7_extract_filename_regex.2.1 "no file mentioned here" (by decide)
    (String.data "a.txt") []

end RagQA
